import Mathlib

/-!
# Deletion Request Manager — shallow embedding

Embedding of the `manage-account-deletion` serverless handler
(`Deno.serve` closure in `src/src/pages/BusinessProfile.tsx`, after the
document separator). The handler dispatches on an `action` field
(`request_deletion`, `cancel_deletion`, `get_status`) and reads/writes the
`account_deletion_requests` table through a Supabase/PostgREST client.

Modelling conventions:
* Timestamps are natural numbers (Unix milliseconds). `setDate(getDate()+3)`
  on a JS `Date` advances the date by exactly three calendar days, i.e.
  `3 * 86400000` ms on the UTC clock the runtime uses.
* The table is a list of rows plus a counter supplying storage-generated ids.
* Each storage operation issued by the handler is recorded in an access log
  tagged with the `user_id` it filters on, so "no storage access" and frame
  conditions are statable.
* `maybeSingle()` succeeds with `none`/`some row` for 0/1 matching rows and
  errors for ≥ 2 (error thrown, caught by the catch-all → HTTP 500).
* `.update(...).eq(...).eq(...).select().single()` errors with code
  `PGRST116` when the affected row count is ≠ 1; PostgREST runs the request
  in a transaction, so the mutation is rolled back in that case. The handler
  maps `PGRST116` to HTTP 404.
-/

inductive Status where
  | pending
  | cancelled
  | completed
deriving DecidableEq, Repr

structure DeletionRequest where
  id : Nat
  user_id : String
  status : Status
  scheduled_deletion_at : Nat
  cancelled_at : Option Nat
deriving DecidableEq, Repr

structure Store where
  rows : List DeletionRequest
  nextId : Nat
deriving DecidableEq, Repr

/-- Grace period: the handler computes `scheduled_deletion_at` by advancing
the current date three days (`scheduledDeletionAt.setDate(getDate() + 3)`). -/
def threeDays : Nat := 3 * 86400000

/-- The row filter used by all three branches:
`.eq('user_id', user_id).eq('status', 'pending')`. -/
def isPendingFor (uid : String) (r : DeletionRequest) : Bool :=
  decide (r.user_id = uid ∧ r.status = Status.pending)

def pendingRows (uid : String) (l : List DeletionRequest) : List DeletionRequest :=
  l.filter (isPendingFor uid)

def pendingFor (st : Store) (uid : String) : List DeletionRequest :=
  pendingRows uid st.rows

/-- Rows belonging to a given user, regardless of status. -/
def rowsOf (uid : String) (l : List DeletionRequest) : List DeletionRequest :=
  l.filter (fun r => decide (r.user_id = uid))

/-- One storage operation, tagged with the `user_id` the query filters on. -/
inductive Access where
  | read (uid : String)
  | write (uid : String)
deriving DecidableEq, Repr

def Access.uid : Access → String
  | .read u => u
  | .write u => u

def Access.isRead : Access → Bool
  | .read _ => true
  | .write _ => false

/-- Structured response payloads, mirroring the JSON bodies the handler
serializes. -/
inductive RespBody where
  | empty
  | errorMsg (error : String)
  | conflictBody (error : String) (existing_request : DeletionRequest)
  | successBody (message : String) (deletion_request : DeletionRequest)
  | statusBody (has_pending_request : Bool) (deletion_request : Option DeletionRequest)
deriving DecidableEq, Repr

structure HttpResponse where
  status : Nat
  headers : List (String × String)
  body : RespBody
deriving DecidableEq, Repr

def corsHeaders : List (String × String) :=
  [("Access-Control-Allow-Origin", "*"),
   ("Access-Control-Allow-Headers", "authorization, x-client-info, apikey, content-type")]

/-- Headers of every JSON response: `{ ...corsHeaders, 'Content-Type': 'application/json' }`. -/
def jsonHeaders : List (String × String) :=
  corsHeaders ++ [("Content-Type", "application/json")]

/-- The request body as seen after `await req.json()`: either the parse throws
(`malformed`) or it yields an object from which `action` and `user_id` are
destructured (absent fields become `none`). -/
inductive ReqBody where
  | malformed
  | parsed (action : Option String) (user_id : Option String)
deriving DecidableEq, Repr

inductive Req where
  | options
  | post (body : ReqBody)
deriving DecidableEq, Repr

/-- Result of one invocation: the HTTP response, the storage state after the
call, and the log of storage operations performed. -/
structure HResult where
  resp : HttpResponse
  store : Store
  log : List Access
deriving DecidableEq, Repr

/-- JS truthiness test `!user_id`: `undefined`, `null` and the empty string are falsy. -/
def isMissing : Option String → Bool
  | none => true
  | some s => s.isEmpty

/-- The update applied by `cancel_deletion` to every row matching
`user_id = uid ∧ status = pending`. -/
def cancelRow (now : Nat) (uid : String) (x : DeletionRequest) : DeletionRequest :=
  if x.user_id = uid ∧ x.status = Status.pending
  then { x with status := Status.cancelled, cancelled_at := some now }
  else x

/-- Branch `request_deletion`: look up a pending row with `maybeSingle()`;
conflict if present, otherwise insert a fresh pending row scheduled three
days out and return it. -/
def requestDeletion (now : Nat) (uid : String) (st : Store) : HResult :=
  match pendingFor st uid with
  | [] =>
      let newRow : DeletionRequest :=
        { id := st.nextId, user_id := uid, status := Status.pending,
          scheduled_deletion_at := now + threeDays, cancelled_at := none }
      { resp := { status := 200, headers := jsonHeaders,
                  body := RespBody.successBody "Account deletion scheduled" newRow },
        store := { rows := st.rows ++ [newRow], nextId := st.nextId + 1 },
        log := [Access.read uid, Access.write uid] }
  | [r] =>
      { resp := { status := 400, headers := jsonHeaders,
                  body := RespBody.conflictBody "A deletion request is already pending" r },
        store := st, log := [Access.read uid] }
  | _ =>
      -- maybeSingle() with more than one matching row errors; the throw is
      -- caught by the catch-all and surfaced as HTTP 500.
      { resp := { status := 500, headers := jsonHeaders,
                  body := RespBody.errorMsg "JSON object requested, multiple (or no) rows returned" },
        store := st, log := [Access.read uid] }

/-- Branch `cancel_deletion`: conditional update + `.select().single()`.
Exactly one affected row → return it updated; otherwise PostgREST raises
`PGRST116`, the transaction is rolled back, and the handler answers 404. -/
def cancelDeletion (now : Nat) (uid : String) (st : Store) : HResult :=
  match pendingFor st uid with
  | [r] =>
      { resp := { status := 200, headers := jsonHeaders,
                  body := RespBody.successBody "Account deletion cancelled" (cancelRow now uid r) },
        store := { rows := st.rows.map (cancelRow now uid), nextId := st.nextId },
        log := [Access.write uid] }
  | _ =>
      { resp := { status := 404, headers := jsonHeaders,
                  body := RespBody.errorMsg "No pending deletion request found" },
        store := st, log := [Access.write uid] }

/-- Branch `get_status`: `maybeSingle()` lookup, answers
`{ has_pending_request: !!request, deletion_request: request }`. -/
def getStatusFor (uid : String) (st : Store) : HResult :=
  match pendingFor st uid with
  | [] =>
      { resp := { status := 200, headers := jsonHeaders,
                  body := RespBody.statusBody false none },
        store := st, log := [Access.read uid] }
  | [r] =>
      { resp := { status := 200, headers := jsonHeaders,
                  body := RespBody.statusBody true (some r) },
        store := st, log := [Access.read uid] }
  | _ =>
      { resp := { status := 500, headers := jsonHeaders,
                  body := RespBody.errorMsg "JSON object requested, multiple (or no) rows returned" },
        store := st, log := [Access.read uid] }

/-- The full handler: CORS preflight, body parse, `user_id` guard, action
dispatch, catch-all. -/
def manageAccountDeletion (now : Nat) (req : Req) (st : Store) : HResult :=
  match req with
  | Req.options =>
      -- `new Response(null, { headers: corsHeaders })`
      { resp := { status := 200, headers := corsHeaders, body := RespBody.empty },
        store := st, log := [] }
  | Req.post ReqBody.malformed =>
      -- `await req.json()` throws; the catch-all answers 500.
      { resp := { status := 500, headers := jsonHeaders,
                  body := RespBody.errorMsg "Unexpected end of JSON input" },
        store := st, log := [] }
  | Req.post (ReqBody.parsed act uidOpt) =>
      if isMissing uidOpt then
        { resp := { status := 400, headers := jsonHeaders,
                    body := RespBody.errorMsg "user_id is required" },
          store := st, log := [] }
      else
        let uid := uidOpt.getD ""
        if act = some "request_deletion" then requestDeletion now uid st
        else if act = some "cancel_deletion" then cancelDeletion now uid st
        else if act = some "get_status" then getStatusFor uid st
        else
          { resp := { status := 400, headers := jsonHeaders,
                      body := RespBody.errorMsg "Invalid action. Use: request_deletion, cancel_deletion, or get_status" },
            store := st, log := [] }

/-- The `user_id` an invocation actually queries storage with, if any. -/
def effectiveUser : Req → Option String
  | Req.post (ReqBody.parsed _ (some u)) => if u.isEmpty then none else some u
  | _ => none

/-- At most one pending row per user — the module invariant. -/
def AtMostOnePending (st : Store) : Prop :=
  ∀ uid, (pendingFor st uid).length ≤ 1

/-! ## Helper lemmas about the row filters -/

lemma isPendingFor_true_iff (uid : String) (r : DeletionRequest) :
    isPendingFor uid r = true ↔ r.user_id = uid ∧ r.status = Status.pending := by
  simp [isPendingFor]

lemma pendingRows_nil (uid : String) : pendingRows uid [] = [] := rfl

lemma pendingRows_append (uid : String) (l₁ l₂ : List DeletionRequest) :
    pendingRows uid (l₁ ++ l₂) = pendingRows uid l₁ ++ pendingRows uid l₂ := by
  simp [pendingRows, List.filter_append]

lemma rowsOf_append (uid : String) (l₁ l₂ : List DeletionRequest) :
    rowsOf uid (l₁ ++ l₂) = rowsOf uid l₁ ++ rowsOf uid l₂ := by
  simp [rowsOf, List.filter_append]

lemma cancelRow_user_id (now : Nat) (uid : String) (x : DeletionRequest) :
    (cancelRow now uid x).user_id = x.user_id := by
  unfold cancelRow; split <;> rfl

lemma cancelRow_eq_of_not_pending (now : Nat) (uid : String) (x : DeletionRequest)
    (h : ¬(x.user_id = uid ∧ x.status = Status.pending)) : cancelRow now uid x = x := by
  unfold cancelRow; exact if_neg h

lemma isPendingFor_cancelRow_self (now : Nat) (uid : String) (x : DeletionRequest) :
    isPendingFor uid (cancelRow now uid x) = false := by
  unfold cancelRow
  split
  · simp [isPendingFor]
  · rename_i h
    exact decide_eq_false h

/-- After `cancel_deletion`'s update runs for `uid`, no pending row for `uid`
remains. -/
lemma pendingRows_map_cancelRow_self (now : Nat) (uid : String) (l : List DeletionRequest) :
    pendingRows uid (l.map (cancelRow now uid)) = [] := by
  induction l with
  | nil => rfl
  | cons x xs ih =>
      simp only [List.map_cons, pendingRows, List.filter_cons,
        isPendingFor_cancelRow_self] at ih ⊢
      exact ih

/-- The `cancel_deletion` update leaves the pending rows of every other user
untouched. -/
lemma pendingRows_map_cancelRow_ne (now : Nat) (uid u : String) (l : List DeletionRequest)
    (h : u ≠ uid) :
    pendingRows u (l.map (cancelRow now uid)) = pendingRows u l := by
  unfold pendingRows
  rw [List.filter_map]
  have hpt : ∀ x ∈ l, (isPendingFor u ∘ cancelRow now uid) x = isPendingFor u x := by
    intro x _
    simp only [Function.comp_apply]
    by_cases hx : x.user_id = uid ∧ x.status = Status.pending
    · have h1 : isPendingFor u (cancelRow now uid x) = false := by
        unfold cancelRow
        rw [if_pos hx]
        simp [isPendingFor]
      have h2 : isPendingFor u x = false := by
        apply decide_eq_false
        rintro ⟨h3, -⟩
        exact h (h3.symm.trans hx.1)
      rw [h1, h2]
    · rw [cancelRow_eq_of_not_pending now uid x hx]
  rw [List.filter_congr hpt]
  have hid : ∀ x ∈ l.filter (isPendingFor u), cancelRow now uid x = x := by
    intro x hx
    have hmem := (isPendingFor_true_iff u x).mp (List.of_mem_filter hx)
    apply cancelRow_eq_of_not_pending
    rintro ⟨h1, -⟩
    exact h (hmem.1.symm.trans h1)
  rw [List.map_congr_left hid]
  simp

/-- The `cancel_deletion` update leaves all rows of every other user
untouched, whatever their status. -/
lemma rowsOf_map_cancelRow_ne (now : Nat) (uid u : String) (l : List DeletionRequest)
    (h : u ≠ uid) :
    rowsOf u (l.map (cancelRow now uid)) = rowsOf u l := by
  unfold rowsOf
  rw [List.filter_map]
  have hpt : ∀ x ∈ l,
      ((fun r => decide (r.user_id = u)) ∘ cancelRow now uid) x =
        (fun r => decide (r.user_id = u)) x := by
    intro x _
    simp only [Function.comp_apply, cancelRow_user_id]
  rw [List.filter_congr hpt]
  have hid : ∀ x ∈ l.filter (fun r => decide (r.user_id = u)), cancelRow now uid x = x := by
    intro x hx
    have hp := List.of_mem_filter hx
    have hxu : x.user_id = u := of_decide_eq_true hp
    apply cancelRow_eq_of_not_pending
    rintro ⟨h1, -⟩
    exact h (hxu.symm.trans h1)
  rw [List.map_congr_left hid]
  simp

/-! ## Dispatch lemmas -/

lemma isMissing_some_ne (uid : String) (h : uid ≠ "") : isMissing (some uid) = false := by
  unfold isMissing
  rw [Bool.eq_false_iff]
  intro hc
  exact h ((String.isEmpty_iff uid).mp hc)

lemma manage_request_eq (now : Nat) (uid : String) (st : Store) (h : uid ≠ "") :
    manageAccountDeletion now (Req.post (ReqBody.parsed (some "request_deletion") (some uid))) st
      = requestDeletion now uid st := by
  simp [manageAccountDeletion, isMissing_some_ne uid h]

lemma manage_cancel_eq (now : Nat) (uid : String) (st : Store) (h : uid ≠ "") :
    manageAccountDeletion now (Req.post (ReqBody.parsed (some "cancel_deletion") (some uid))) st
      = cancelDeletion now uid st := by
  simp [manageAccountDeletion, isMissing_some_ne uid h]

lemma manage_status_eq (now : Nat) (uid : String) (st : Store) (h : uid ≠ "") :
    manageAccountDeletion now (Req.post (ReqBody.parsed (some "get_status") (some uid))) st
      = getStatusFor uid st := by
  simp [manageAccountDeletion, isMissing_some_ne uid h]

/-! ## Claim theorems -/

/-- C1: for every `user_id` with no pending deletion-request row,
`request_deletion` inserts exactly one new row with `status = pending` and
`scheduled_deletion_at = now + 3 days`, and returns a success response
containing the created row. -/
theorem request_deletion_creates_pending_row (now : Nat) (uid : String) (st : Store)
    (huid : uid ≠ "") (hnone : pendingFor st uid = []) :
    ∃ newRow : DeletionRequest,
      manageAccountDeletion now (Req.post (ReqBody.parsed (some "request_deletion") (some uid))) st =
        { resp := { status := 200, headers := jsonHeaders,
                    body := RespBody.successBody "Account deletion scheduled" newRow },
          store := { rows := st.rows ++ [newRow], nextId := st.nextId + 1 },
          log := [Access.read uid, Access.write uid] } ∧
      newRow.user_id = uid ∧ newRow.status = Status.pending ∧
      newRow.scheduled_deletion_at = now + threeDays ∧ newRow.cancelled_at = none := by
  refine ⟨{ id := st.nextId, user_id := uid, status := Status.pending,
            scheduled_deletion_at := now + threeDays, cancelled_at := none },
          ?_, rfl, rfl, rfl, rfl⟩
  rw [manage_request_eq now uid st huid]
  unfold requestDeletion
  rw [hnone]

/-- C1 witness: a fresh user on the empty store. -/
theorem request_deletion_creates_pending_row_witness :
    ∃ newRow : DeletionRequest,
      manageAccountDeletion 7 (Req.post (ReqBody.parsed (some "request_deletion") (some "u1"))) ⟨[], 0⟩ =
        { resp := { status := 200, headers := jsonHeaders,
                    body := RespBody.successBody "Account deletion scheduled" newRow },
          store := { rows := [] ++ [newRow], nextId := 0 + 1 },
          log := [Access.read "u1", Access.write "u1"] } ∧
      newRow.user_id = "u1" ∧ newRow.status = Status.pending ∧
      newRow.scheduled_deletion_at = 7 + threeDays ∧ newRow.cancelled_at = none :=
  request_deletion_creates_pending_row 7 "u1" ⟨[], 0⟩ (by decide) rfl

/-- Branch equations: `request_deletion` with no / exactly one pending row. -/
lemma requestDeletion_of_none (now : Nat) (uid : String) (st : Store)
    (h : pendingFor st uid = []) :
    requestDeletion now uid st =
      { resp := { status := 200, headers := jsonHeaders,
                  body := RespBody.successBody "Account deletion scheduled"
                    { id := st.nextId, user_id := uid, status := Status.pending,
                      scheduled_deletion_at := now + threeDays, cancelled_at := none } },
        store := { rows := st.rows ++
                     [{ id := st.nextId, user_id := uid, status := Status.pending,
                        scheduled_deletion_at := now + threeDays, cancelled_at := none }],
                   nextId := st.nextId + 1 },
        log := [Access.read uid, Access.write uid] } := by
  unfold requestDeletion
  rw [h]

lemma requestDeletion_of_one (now : Nat) (uid : String) (st : Store) (r : DeletionRequest)
    (h : pendingFor st uid = [r]) :
    requestDeletion now uid st =
      { resp := { status := 400, headers := jsonHeaders,
                  body := RespBody.conflictBody "A deletion request is already pending" r },
        store := st, log := [Access.read uid] } := by
  unfold requestDeletion
  rw [h]

/-- The row freshly inserted by `request_deletion` matches the pending filter
for its own user and no other. -/
lemma pendingFor_after_insert (now : Nat) (uid : String) (st : Store)
    (h : pendingFor st uid = []) :
    pendingFor
      { rows := st.rows ++
          [{ id := st.nextId, user_id := uid, status := Status.pending,
             scheduled_deletion_at := now + threeDays, cancelled_at := none }],
        nextId := st.nextId + 1 } uid =
      [{ id := st.nextId, user_id := uid, status := Status.pending,
         scheduled_deletion_at := now + threeDays, cancelled_at := none }] := by
  show pendingRows uid _ = _
  rw [pendingRows_append]
  rw [show pendingRows uid st.rows = [] from h]
  simp [pendingRows, List.filter, isPendingFor]

/-- C2: a `request_deletion` call for a user with a pending row fails with
HTTP 400, carries the existing request, and inserts nothing; and two
back-to-back `request_deletion` calls for the same user leave exactly one
pending row for that user, the second answering 400. -/
theorem request_deletion_conflict :
    (∀ (now : Nat) (uid : String) (st : Store) (r : DeletionRequest),
      uid ≠ "" → pendingFor st uid = [r] →
      manageAccountDeletion now (Req.post (ReqBody.parsed (some "request_deletion") (some uid))) st =
        { resp := { status := 400, headers := jsonHeaders,
                    body := RespBody.conflictBody "A deletion request is already pending" r },
          store := st, log := [Access.read uid] }) ∧
    (∀ (n₁ n₂ : Nat) (uid : String) (st : Store),
      uid ≠ "" → (pendingFor st uid).length ≤ 1 →
      (pendingFor
        (manageAccountDeletion n₂ (Req.post (ReqBody.parsed (some "request_deletion") (some uid)))
          (manageAccountDeletion n₁ (Req.post (ReqBody.parsed (some "request_deletion") (some uid))) st).store).store
        uid).length = 1 ∧
      (manageAccountDeletion n₂ (Req.post (ReqBody.parsed (some "request_deletion") (some uid)))
        (manageAccountDeletion n₁ (Req.post (ReqBody.parsed (some "request_deletion") (some uid))) st).store).resp.status
        = 400) := by
  constructor
  · intro now uid st r huid hone
    rw [manage_request_eq now uid st huid, requestDeletion_of_one now uid st r hone]
  · intro n₁ n₂ uid st huid hlen
    rw [manage_request_eq n₁ uid st huid]
    rcases hp : pendingFor st uid with - | ⟨r, rs⟩
    · rw [requestDeletion_of_none n₁ uid st hp]
      rw [manage_request_eq n₂ uid _ huid]
      rw [requestDeletion_of_one n₂ uid _ _ (pendingFor_after_insert n₁ uid st hp)]
      exact ⟨by rw [pendingFor_after_insert n₁ uid st hp]; rfl, rfl⟩
    · have hone : pendingFor st uid = [r] := by
        rcases rs with - | ⟨r_, rs_⟩
        · exact hp
        · rw [hp] at hlen; simp at hlen
      rw [requestDeletion_of_one n₁ uid st r hone]
      rw [manage_request_eq n₂ uid st huid]
      rw [requestDeletion_of_one n₂ uid st r hone]
      exact ⟨by rw [hone]; rfl, rfl⟩

/-- C2 witness: a user with one pending row gets a conflict, and two calls
from the empty store leave one pending row. -/
theorem request_deletion_conflict_witness :
    (manageAccountDeletion 9 (Req.post (ReqBody.parsed (some "request_deletion") (some "u1")))
        ⟨[⟨0, "u1", Status.pending, 5, none⟩], 1⟩ =
      { resp := { status := 400, headers := jsonHeaders,
                  body := RespBody.conflictBody "A deletion request is already pending"
                    ⟨0, "u1", Status.pending, 5, none⟩ },
        store := ⟨[⟨0, "u1", Status.pending, 5, none⟩], 1⟩, log := [Access.read "u1"] }) ∧
    ((pendingFor
        (manageAccountDeletion 2 (Req.post (ReqBody.parsed (some "request_deletion") (some "u1")))
          (manageAccountDeletion 1 (Req.post (ReqBody.parsed (some "request_deletion") (some "u1"))) ⟨[], 0⟩).store).store
        "u1").length = 1 ∧
      (manageAccountDeletion 2 (Req.post (ReqBody.parsed (some "request_deletion") (some "u1")))
        (manageAccountDeletion 1 (Req.post (ReqBody.parsed (some "request_deletion") (some "u1"))) ⟨[], 0⟩).store).resp.status
        = 400) :=
  ⟨request_deletion_conflict.1 9 "u1" ⟨[⟨0, "u1", Status.pending, 5, none⟩], 1⟩
      ⟨0, "u1", Status.pending, 5, none⟩ (by decide) (by decide),
   request_deletion_conflict.2 1 2 "u1" ⟨[], 0⟩ (by decide) (by decide)⟩


/-- C4: `cancel_deletion` for a user with no pending row answers HTTP 404
and leaves the table unchanged. -/
theorem cancel_deletion_not_found (now : Nat) (uid : String) (st : Store)
    (huid : uid ≠ "") (hnone : pendingFor st uid = []) :
    manageAccountDeletion now (Req.post (ReqBody.parsed (some "cancel_deletion") (some uid))) st =
      { resp := { status := 404, headers := jsonHeaders,
                  body := RespBody.errorMsg "No pending deletion request found" },
        store := st, log := [Access.write uid] } := by
  rw [manage_cancel_eq now uid st huid]
  unfold cancelDeletion
  rw [hnone]

/-- C4 witness: cancelling on a store whose only row for the user is already
cancelled. -/
theorem cancel_deletion_not_found_witness :
    manageAccountDeletion 3 (Req.post (ReqBody.parsed (some "cancel_deletion") (some "u1")))
        ⟨[⟨0, "u1", Status.cancelled, 5, some 2⟩], 1⟩ =
      { resp := { status := 404, headers := jsonHeaders,
                  body := RespBody.errorMsg "No pending deletion request found" },
        store := ⟨[⟨0, "u1", Status.cancelled, 5, some 2⟩], 1⟩, log := [Access.write "u1"] } :=
  cancel_deletion_not_found 3 "u1" ⟨[⟨0, "u1", Status.cancelled, 5, some 2⟩], 1⟩
    (by decide) (by decide)

/-- C7: whatever the action, a request without a usable `user_id` is answered
with HTTP 400 and performs no storage operation. -/
theorem missing_user_id_rejected (now : Nat) (act uidOpt : Option String) (st : Store)
    (h : isMissing uidOpt = true) :
    manageAccountDeletion now (Req.post (ReqBody.parsed act uidOpt)) st =
      { resp := { status := 400, headers := jsonHeaders,
                  body := RespBody.errorMsg "user_id is required" },
        store := st, log := [] } := by
  simp [manageAccountDeletion, h]

/-- C7 witness: an unrecognized action with `user_id` absent. -/
theorem missing_user_id_rejected_witness :
    manageAccountDeletion 0 (Req.post (ReqBody.parsed (some "self_destruct") none)) ⟨[], 0⟩ =
      { resp := { status := 400, headers := jsonHeaders,
                  body := RespBody.errorMsg "user_id is required" },
        store := ⟨[], 0⟩, log := [] } :=
  missing_user_id_rejected 0 (some "self_destruct") none ⟨[], 0⟩ rfl

/-- Branch equation: `cancel_deletion` with exactly one pending row. -/
lemma cancelDeletion_of_one (now : Nat) (uid : String) (st : Store) (r : DeletionRequest)
    (h : pendingFor st uid = [r]) :
    cancelDeletion now uid st =
      { resp := { status := 200, headers := jsonHeaders,
                  body := RespBody.successBody "Account deletion cancelled" (cancelRow now uid r) },
        store := { rows := st.rows.map (cancelRow now uid), nextId := st.nextId },
        log := [Access.write uid] } := by
  unfold cancelDeletion
  rw [h]

lemma getStatusFor_of_none (uid : String) (st : Store) (h : pendingFor st uid = []) :
    getStatusFor uid st =
      { resp := { status := 200, headers := jsonHeaders,
                  body := RespBody.statusBody false none },
        store := st, log := [Access.read uid] } := by
  unfold getStatusFor
  rw [h]

lemma getStatusFor_of_one (uid : String) (st : Store) (r : DeletionRequest)
    (h : pendingFor st uid = [r]) :
    getStatusFor uid st =
      { resp := { status := 200, headers := jsonHeaders,
                  body := RespBody.statusBody true (some r) },
        store := st, log := [Access.read uid] } := by
  unfold getStatusFor
  rw [h]

lemma getStatusFor_store (uid : String) (st : Store) : (getStatusFor uid st).store = st := by
  unfold getStatusFor
  split <;> rfl

lemma isPendingFor_of_mem_pendingFor (st : Store) (uid : String) (r : DeletionRequest)
    (h : pendingFor st uid = [r]) : isPendingFor uid r = true := by
  have hm : r ∈ List.filter (isPendingFor uid) st.rows := by
    rw [show List.filter (isPendingFor uid) st.rows = [r] from h]
    exact List.mem_singleton_self r
  exact List.of_mem_filter hm

lemma cancelRow_of_pending (now : Nat) (uid : String) (r : DeletionRequest)
    (h : isPendingFor uid r = true) :
    cancelRow now uid r = { r with status := Status.cancelled, cancelled_at := some now } := by
  unfold cancelRow
  rw [if_pos ((isPendingFor_true_iff uid r).mp h)]

/-- C3: `cancel_deletion` on the one pending row turns it into
`status = cancelled` with `cancelled_at = now` and returns the updated row,
and a subsequent `get_status` for that user reports no pending request. -/
theorem cancel_deletion_cancels (now n₂ : Nat) (uid : String) (st : Store) (r : DeletionRequest)
    (huid : uid ≠ "") (hone : pendingFor st uid = [r]) :
    manageAccountDeletion now (Req.post (ReqBody.parsed (some "cancel_deletion") (some uid))) st =
      { resp := { status := 200, headers := jsonHeaders,
                  body := RespBody.successBody "Account deletion cancelled"
                    { r with status := Status.cancelled, cancelled_at := some now } },
        store := { rows := st.rows.map (cancelRow now uid), nextId := st.nextId },
        log := [Access.write uid] } ∧
    (manageAccountDeletion n₂ (Req.post (ReqBody.parsed (some "get_status") (some uid)))
      (manageAccountDeletion now (Req.post (ReqBody.parsed (some "cancel_deletion") (some uid))) st).store).resp =
      { status := 200, headers := jsonHeaders, body := RespBody.statusBody false none } := by
  have hpend := isPendingFor_of_mem_pendingFor st uid r hone
  have h1 : manageAccountDeletion now (Req.post (ReqBody.parsed (some "cancel_deletion") (some uid))) st =
      { resp := { status := 200, headers := jsonHeaders,
                  body := RespBody.successBody "Account deletion cancelled"
                    { r with status := Status.cancelled, cancelled_at := some now } },
        store := { rows := st.rows.map (cancelRow now uid), nextId := st.nextId },
        log := [Access.write uid] } := by
    rw [manage_cancel_eq now uid st huid, cancelDeletion_of_one now uid st r hone,
      cancelRow_of_pending now uid r hpend]
  refine ⟨h1, ?_⟩
  rw [h1, manage_status_eq n₂ uid _ huid]
  have hnone : pendingFor { rows := st.rows.map (cancelRow now uid), nextId := st.nextId } uid = [] :=
    pendingRows_map_cancelRow_self now uid st.rows
  rw [getStatusFor_of_none uid _ hnone]

/-- C3 witness: one pending row for `u1`, cancelled at time 3. -/
theorem cancel_deletion_cancels_witness :
    manageAccountDeletion 3 (Req.post (ReqBody.parsed (some "cancel_deletion") (some "u1")))
        ⟨[⟨0, "u1", Status.pending, 5, none⟩], 1⟩ =
      { resp := { status := 200, headers := jsonHeaders,
                  body := RespBody.successBody "Account deletion cancelled"
                    ⟨0, "u1", Status.cancelled, 5, some 3⟩ },
        store := { rows := [⟨0, "u1", Status.pending, 5, none⟩].map (cancelRow 3 "u1"),
                   nextId := 1 },
        log := [Access.write "u1"] } ∧
    (manageAccountDeletion 4 (Req.post (ReqBody.parsed (some "get_status") (some "u1")))
      (manageAccountDeletion 3 (Req.post (ReqBody.parsed (some "cancel_deletion") (some "u1")))
        ⟨[⟨0, "u1", Status.pending, 5, none⟩], 1⟩).store).resp =
      { status := 200, headers := jsonHeaders, body := RespBody.statusBody false none } :=
  cancel_deletion_cancels 3 4 "u1" ⟨[⟨0, "u1", Status.pending, 5, none⟩], 1⟩
    ⟨0, "u1", Status.pending, 5, none⟩ (by decide) (by decide)

/-- C5: `get_status` answers `has_pending_request` / `deletion_request`
according to whether a pending row exists, changes nothing and performs no
write. -/
theorem get_status_reports_pending (now : Nat) (uid : String) (st : Store)
    (huid : uid ≠ "") (hinv : (pendingFor st uid).length ≤ 1) :
    (manageAccountDeletion now (Req.post (ReqBody.parsed (some "get_status") (some uid))) st).store = st ∧
    (∀ a ∈ (manageAccountDeletion now (Req.post (ReqBody.parsed (some "get_status") (some uid))) st).log,
      a.isRead = true) ∧
    ((pendingFor st uid = [] ∧
        (manageAccountDeletion now (Req.post (ReqBody.parsed (some "get_status") (some uid))) st).resp =
          { status := 200, headers := jsonHeaders, body := RespBody.statusBody false none }) ∨
     (∃ r, pendingFor st uid = [r] ∧
        (manageAccountDeletion now (Req.post (ReqBody.parsed (some "get_status") (some uid))) st).resp =
          { status := 200, headers := jsonHeaders, body := RespBody.statusBody true (some r) })) := by
  rw [manage_status_eq now uid st huid]
  rcases hp : pendingFor st uid with - | ⟨r, rs⟩
  · rw [getStatusFor_of_none uid st hp]
    refine ⟨rfl, ?_, Or.inl ⟨rfl, rfl⟩⟩
    intro a ha
    rw [List.mem_singleton.mp ha]
    rfl
  · rcases rs with - | ⟨r', rs'⟩
    · rw [getStatusFor_of_one uid st r hp]
      refine ⟨rfl, ?_, Or.inr ⟨r, rfl, rfl⟩⟩
      intro a ha
      rw [List.mem_singleton.mp ha]
      rfl
    · rw [hp] at hinv
      simp at hinv

/-- C5 witness: a user with no rows at all. -/
theorem get_status_reports_pending_witness :
    (manageAccountDeletion 0 (Req.post (ReqBody.parsed (some "get_status") (some "u1"))) ⟨[], 0⟩).store = ⟨[], 0⟩ ∧
    (∀ a ∈ (manageAccountDeletion 0 (Req.post (ReqBody.parsed (some "get_status") (some "u1"))) ⟨[], 0⟩).log,
      a.isRead = true) ∧
    ((pendingFor ⟨[], 0⟩ "u1" = [] ∧
        (manageAccountDeletion 0 (Req.post (ReqBody.parsed (some "get_status") (some "u1"))) ⟨[], 0⟩).resp =
          { status := 200, headers := jsonHeaders, body := RespBody.statusBody false none }) ∨
     (∃ r, pendingFor ⟨[], 0⟩ "u1" = [r] ∧
        (manageAccountDeletion 0 (Req.post (ReqBody.parsed (some "get_status") (some "u1"))) ⟨[], 0⟩).resp =
          { status := 200, headers := jsonHeaders, body := RespBody.statusBody true (some r) })) :=
  get_status_reports_pending 0 "u1" ⟨[], 0⟩ (by decide) (by decide)

/-- Reduction of the dispatcher on a usable `user_id`. -/
lemma manage_post_reduce (now : Nat) (act : Option String) (u : String) (st : Store)
    (h : u.isEmpty = false) :
    manageAccountDeletion now (Req.post (ReqBody.parsed act (some u))) st =
      if act = some "request_deletion" then requestDeletion now u st
      else if act = some "cancel_deletion" then cancelDeletion now u st
      else if act = some "get_status" then getStatusFor u st
      else { resp := { status := 400, headers := jsonHeaders,
                       body := RespBody.errorMsg "Invalid action. Use: request_deletion, cancel_deletion, or get_status" },
             store := st, log := [] } := by
  simp [manageAccountDeletion, isMissing, h]

lemma atMostOne_requestDeletion (now : Nat) (uid : String) (st : Store)
    (h : AtMostOnePending st) : AtMostOnePending (requestDeletion now uid st).store := by
  intro u
  rcases hp : pendingFor st uid with - | ⟨r, rs⟩
  · rw [requestDeletion_of_none now uid st hp]
    by_cases hu : u = uid
    · subst hu
      rw [show pendingFor _ u = _ from pendingFor_after_insert now u st hp]
      simp
    · show (pendingRows u _).length ≤ 1
      rw [pendingRows_append]
      have hnr : pendingRows u
          [{ id := st.nextId, user_id := uid, status := Status.pending,
             scheduled_deletion_at := now + threeDays, cancelled_at := none }] = [] := by
        simp only [pendingRows, List.filter]
        rw [show isPendingFor u
            { id := st.nextId, user_id := uid, status := Status.pending,
              scheduled_deletion_at := now + threeDays, cancelled_at := none } = false from
          decide_eq_false (fun hc => hu (hc.1.symm))]
      rw [hnr, List.append_nil]
      exact h u
  · unfold requestDeletion
    rw [hp]
    cases rs <;> exact h u

lemma atMostOne_cancelDeletion (now : Nat) (uid : String) (st : Store)
    (h : AtMostOnePending st) : AtMostOnePending (cancelDeletion now uid st).store := by
  intro u
  rcases hp : pendingFor st uid with - | ⟨r, rs⟩
  · unfold cancelDeletion
    rw [hp]
    exact h u
  · cases rs with
    | nil =>
        rw [cancelDeletion_of_one now uid st r hp]
        by_cases hu : u = uid
        · subst hu
          show (pendingRows u _).length ≤ 1
          rw [pendingRows_map_cancelRow_self]
          simp
        · show (pendingRows u _).length ≤ 1
          rw [pendingRows_map_cancelRow_ne now uid u st.rows hu]
          exact h u
    | cons r' rs' =>
        unfold cancelDeletion
        rw [hp]
        exact h u

/-- C6: every invocation of the handler preserves the at-most-one-pending-row
invariant. -/
theorem at_most_one_pending_preserved (now : Nat) (req : Req) (st : Store)
    (h : AtMostOnePending st) :
    AtMostOnePending (manageAccountDeletion now req st).store := by
  cases req with
  | options => exact h
  | post b =>
    cases b with
    | malformed => exact h
    | parsed act uidOpt =>
      cases uidOpt with
      | none => exact h
      | some u =>
        by_cases he : u.isEmpty = true
        · have hstep : manageAccountDeletion now (Req.post (ReqBody.parsed act (some u))) st =
              { resp := { status := 400, headers := jsonHeaders,
                          body := RespBody.errorMsg "user_id is required" },
                store := st, log := [] } := by
            simp [manageAccountDeletion, isMissing, he]
          rw [hstep]
          exact h
        · rw [manage_post_reduce now act u st (Bool.eq_false_iff.mpr he)]
          by_cases h1 : act = some "request_deletion"
          · rw [if_pos h1]
            exact atMostOne_requestDeletion now u st h
          · rw [if_neg h1]
            by_cases h2 : act = some "cancel_deletion"
            · rw [if_pos h2]
              exact atMostOne_cancelDeletion now u st h
            · rw [if_neg h2]
              by_cases h3 : act = some "get_status"
              · rw [if_pos h3]
                rw [show AtMostOnePending (getStatusFor u st).store = AtMostOnePending st from
                  congrArg AtMostOnePending (getStatusFor_store u st)]
                exact h
              · rw [if_neg h3]
                exact h

/-- C6 witness: the invariant transported across a `request_deletion` call on
the empty store, read back for the inserted user. -/
theorem at_most_one_pending_preserved_witness :
    (pendingFor
      (manageAccountDeletion 0 (Req.post (ReqBody.parsed (some "request_deletion") (some "u1")))
        ⟨[], 0⟩).store "u1").length ≤ 1 :=
  at_most_one_pending_preserved 0 (Req.post (ReqBody.parsed (some "request_deletion") (some "u1")))
    ⟨[], 0⟩ (fun _ => by simp [pendingFor, pendingRows]) "u1"

/-- C8 counterexample: a request body that fails to parse is answered with
HTTP 500 by the catch-all, not with 400 as the claim states. -/
theorem malformed_body_not_400 :
    (manageAccountDeletion 0 (Req.post ReqBody.malformed) ⟨[], 0⟩).resp.status = 500 ∧
    (manageAccountDeletion 0 (Req.post ReqBody.malformed) ⟨[], 0⟩).resp.status ≠ 400 := by
  exact ⟨rfl, by decide⟩

/-- C8 (amended): a parsed request whose `user_id` is unusable, or whose
action is none of the three recognized ones, is answered with HTTP 400 and
leaves storage untouched; unparseable bodies instead hit the catch-all
(HTTP 500). -/
theorem invalid_argument_rejected_400 (now : Nat) (act uidOpt : Option String) (st : Store)
    (h : isMissing uidOpt = true ∨
      (act ≠ some "request_deletion" ∧ act ≠ some "cancel_deletion" ∧ act ≠ some "get_status")) :
    (manageAccountDeletion now (Req.post (ReqBody.parsed act uidOpt)) st).resp.status = 400 ∧
    (manageAccountDeletion now (Req.post (ReqBody.parsed act uidOpt)) st).store = st ∧
    (manageAccountDeletion now (Req.post (ReqBody.parsed act uidOpt)) st).log = [] := by
  rcases h with h | ⟨h1, h2, h3⟩
  · simp [manageAccountDeletion, h]
  · cases uidOpt with
    | none => exact ⟨rfl, rfl, rfl⟩
    | some u =>
      by_cases he : u.isEmpty = true
      · simp [manageAccountDeletion, isMissing, he]
      · rw [manage_post_reduce now act u st (Bool.eq_false_iff.mpr he),
          if_neg h1, if_neg h2, if_neg h3]
        exact ⟨rfl, rfl, rfl⟩

/-- C8 amended-claim witness: an unknown action with a present `user_id`. -/
theorem invalid_argument_rejected_400_witness :
    (manageAccountDeletion 0 (Req.post (ReqBody.parsed (some "frobnicate") (some "u1"))) ⟨[], 0⟩).resp.status = 400 ∧
    (manageAccountDeletion 0 (Req.post (ReqBody.parsed (some "frobnicate") (some "u1"))) ⟨[], 0⟩).store = ⟨[], 0⟩ ∧
    (manageAccountDeletion 0 (Req.post (ReqBody.parsed (some "frobnicate") (some "u1"))) ⟨[], 0⟩).log = [] :=
  invalid_argument_rejected_400 0 (some "frobnicate") (some "u1") ⟨[], 0⟩ (Or.inr (by decide))

lemma manage_headers_cors_or_json (now : Nat) (req : Req) (st : Store) :
    (manageAccountDeletion now req st).resp.headers = corsHeaders ∨
    (manageAccountDeletion now req st).resp.headers = jsonHeaders := by
  cases req with
  | options => exact Or.inl rfl
  | post b =>
    cases b with
    | malformed => exact Or.inr rfl
    | parsed act uidOpt =>
      cases uidOpt with
      | none => exact Or.inr rfl
      | some u =>
        by_cases he : u.isEmpty = true
        · right
          simp [manageAccountDeletion, isMissing, he]
        · rw [manage_post_reduce now act u st (Bool.eq_false_iff.mpr he)]
          by_cases h1 : act = some "request_deletion"
          · rw [if_pos h1]
            right
            unfold requestDeletion
            split <;> rfl
          · rw [if_neg h1]
            by_cases h2 : act = some "cancel_deletion"
            · rw [if_pos h2]
              right
              unfold cancelDeletion
              split <;> rfl
            · rw [if_neg h2]
              by_cases h3 : act = some "get_status"
              · rw [if_pos h3]
                right
                unfold getStatusFor
                split <;> rfl
              · rw [if_neg h3]
                exact Or.inr rfl

/-- C9: every response — success, every error status, and the CORS
preflight, which is answered with an empty body — carries the permissive
CORS headers. -/
theorem cors_on_every_response (now : Nat) (req : Req) (st : Store) :
    (("Access-Control-Allow-Origin", "*") ∈ (manageAccountDeletion now req st).resp.headers ∧
     ("Access-Control-Allow-Headers", "authorization, x-client-info, apikey, content-type")
       ∈ (manageAccountDeletion now req st).resp.headers) ∧
    (req = Req.options →
      (manageAccountDeletion now req st).resp =
        { status := 200, headers := corsHeaders, body := RespBody.empty }) := by
  constructor
  · rcases manage_headers_cors_or_json now req st with hh | hh <;> rw [hh] <;>
      exact ⟨by simp [corsHeaders, jsonHeaders], by simp [corsHeaders, jsonHeaders]⟩
  · rintro rfl
    rfl

/-- C9 witness: the preflight on the empty store. -/
theorem cors_on_every_response_witness :
    ("Access-Control-Allow-Origin", "*") ∈ (manageAccountDeletion 0 Req.options ⟨[], 0⟩).resp.headers ∧
    (manageAccountDeletion 0 Req.options ⟨[], 0⟩).resp =
      { status := 200, headers := corsHeaders, body := RespBody.empty } :=
  ⟨(cors_on_every_response 0 Req.options ⟨[], 0⟩).1.1,
   (cors_on_every_response 0 Req.options ⟨[], 0⟩).2 rfl⟩

lemma requestDeletion_log_uid (now : Nat) (uid : String) (st : Store) :
    ∀ a ∈ (requestDeletion now uid st).log, a.uid = uid := by
  unfold requestDeletion
  split <;> intro a ha <;> fin_cases ha <;> rfl

lemma cancelDeletion_log_uid (now : Nat) (uid : String) (st : Store) :
    ∀ a ∈ (cancelDeletion now uid st).log, a.uid = uid := by
  unfold cancelDeletion
  split <;> intro a ha <;> fin_cases ha <;> rfl

lemma getStatusFor_log_uid (uid : String) (st : Store) :
    ∀ a ∈ (getStatusFor uid st).log, a.uid = uid := by
  unfold getStatusFor
  split <;> intro a ha <;> fin_cases ha <;> rfl

/-- C10: one invocation touches only the rows of the requested user — the
rows of every other user are unchanged, and every storage operation in the
log filters on the request's `user_id`. -/
theorem per_user_frame :
    (∀ (now : Nat) (req : Req) (st : Store) (u : String),
      effectiveUser req ≠ some u →
      rowsOf u (manageAccountDeletion now req st).store.rows = rowsOf u st.rows) ∧
    (∀ (now : Nat) (req : Req) (st : Store) (a : Access),
      a ∈ (manageAccountDeletion now req st).log → effectiveUser req = some a.uid) := by
  constructor
  · intro now req st u hne
    cases req with
    | options => rfl
    | post b =>
      cases b with
      | malformed => rfl
      | parsed act uidOpt =>
        cases uidOpt with
        | none => rfl
        | some v =>
          by_cases he : v.isEmpty = true
          · have hstep : manageAccountDeletion now (Req.post (ReqBody.parsed act (some v))) st =
                { resp := { status := 400, headers := jsonHeaders,
                            body := RespBody.errorMsg "user_id is required" },
                  store := st, log := [] } := by
              simp [manageAccountDeletion, isMissing, he]
            rw [hstep]
          · have heff : effectiveUser (Req.post (ReqBody.parsed act (some v))) = some v := by
              simp [effectiveUser, he]
            rw [heff] at hne
            have hvu : u ≠ v := fun hh => hne (congrArg some hh.symm)
            rw [manage_post_reduce now act v st (Bool.eq_false_iff.mpr he)]
            by_cases h1 : act = some "request_deletion"
            · rw [if_pos h1]
              rcases hp : pendingFor st v with - | ⟨r, rs⟩
              · rw [requestDeletion_of_none now v st hp]
                show rowsOf u (st.rows ++ _) = rowsOf u st.rows
                rw [rowsOf_append]
                have hz : rowsOf u
                    [{ id := st.nextId, user_id := v, status := Status.pending,
                       scheduled_deletion_at := now + threeDays, cancelled_at := none }] = [] := by
                  simp only [rowsOf, List.filter]
                  rw [show decide
                      (DeletionRequest.user_id
                        { id := st.nextId, user_id := v, status := Status.pending,
                          scheduled_deletion_at := now + threeDays, cancelled_at := none } = u) = false from
                    decide_eq_false (fun hc => hvu hc.symm)]
                rw [hz, List.append_nil]
              · unfold requestDeletion
                rw [hp]
                cases rs <;> rfl
            · rw [if_neg h1]
              by_cases h2 : act = some "cancel_deletion"
              · rw [if_pos h2]
                rcases hp : pendingFor st v with - | ⟨r, rs⟩
                · unfold cancelDeletion
                  rw [hp]
                · cases rs with
                  | nil =>
                      rw [cancelDeletion_of_one now v st r hp]
                      exact rowsOf_map_cancelRow_ne now v u st.rows hvu
                  | cons r' rs' =>
                      unfold cancelDeletion
                      rw [hp]
              · rw [if_neg h2]
                by_cases h3 : act = some "get_status"
                · rw [if_pos h3, getStatusFor_store v st]
                · rw [if_neg h3]
  · intro now req st a ha
    cases req with
    | options => exact absurd ha (List.not_mem_nil a)
    | post b =>
      cases b with
      | malformed => exact absurd ha (List.not_mem_nil a)
      | parsed act uidOpt =>
        cases uidOpt with
        | none => exact absurd ha (List.not_mem_nil a)
        | some v =>
          by_cases he : v.isEmpty = true
          · have hstep : manageAccountDeletion now (Req.post (ReqBody.parsed act (some v))) st =
                { resp := { status := 400, headers := jsonHeaders,
                            body := RespBody.errorMsg "user_id is required" },
                  store := st, log := [] } := by
              simp [manageAccountDeletion, isMissing, he]
            rw [hstep] at ha
            exact absurd ha (List.not_mem_nil a)
          · have heff : effectiveUser (Req.post (ReqBody.parsed act (some v))) = some v := by
              simp [effectiveUser, he]
            rw [heff]
            rw [manage_post_reduce now act v st (Bool.eq_false_iff.mpr he)] at ha
            by_cases h1 : act = some "request_deletion"
            · rw [if_pos h1] at ha
              rw [requestDeletion_log_uid now v st a ha]
            · rw [if_neg h1] at ha
              by_cases h2 : act = some "cancel_deletion"
              · rw [if_pos h2] at ha
                rw [cancelDeletion_log_uid now v st a ha]
              · rw [if_neg h2] at ha
                by_cases h3 : act = some "get_status"
                · rw [if_pos h3] at ha
                  rw [getStatusFor_log_uid v st a ha]
                · rw [if_neg h3] at ha
                  exact absurd ha (List.not_mem_nil a)

/-- C10 witness: a `request_deletion` for `u1` leaves `u2`'s rows unchanged
and logs only operations filtered on `u1`. -/
theorem per_user_frame_witness :
    rowsOf "u2"
      (manageAccountDeletion 0 (Req.post (ReqBody.parsed (some "request_deletion") (some "u1")))
        ⟨[], 0⟩).store.rows = rowsOf "u2" (Store.mk [] 0).rows ∧
    effectiveUser (Req.post (ReqBody.parsed (some "request_deletion") (some "u1"))) =
      some (Access.read "u1").uid :=
  ⟨per_user_frame.1 0 (Req.post (ReqBody.parsed (some "request_deletion") (some "u1")))
      ⟨[], 0⟩ "u2" (by decide),
   per_user_frame.2 0 (Req.post (ReqBody.parsed (some "request_deletion") (some "u1")))
      ⟨[], 0⟩ (Access.read "u1") (by decide)⟩
